import Mathlib

/-!
# Verification of the query-construction and pagination layer

Shallow embedding of the query-building, cursor-bookkeeping, count and
client-side sorting logic of `src/scylla-client/src/App.tsx` (a React
admin console over ScyllaDB), together with theorems settling the
claims about it.  Each definition is translated from the source file;
the few backend pieces that are not part of the sources are modelled
from the specification and marked as such in their doc comments.
-/

namespace ScyllaClient

/-- The single-quote character (code point 39), used for CQL string literals. -/
def quoteChar : Char := Char.ofNat 39

/-- The single-quote character as a one-character string. -/
def quoteStr : String := quoteChar.toString

/-- The numeric-literal grammar of the regex at `App.tsx:148`
(`^-?\d+(\.\d+)?$`): optional leading minus, one or more digits,
optionally a decimal point followed by one or more digits. -/
def numericPattern (s : String) : Bool :=
  let cs0 := s.data
  let cs := match cs0 with
    | c :: rest => if c = '-' then rest else cs0
    | [] => []
  let p := cs.span Char.isDigit
  if p.1.isEmpty then false
  else
    match p.2 with
    | [] => true
    | c :: rest2 =>
      if c = '.' then
        let q := rest2.span Char.isDigit
        !q.1.isEmpty && q.2.isEmpty
      else false

/-- `String.prototype.trim`: drop leading and trailing whitespace. -/
def jsTrim (s : String) : String :=
  String.mk ((((s.data.dropWhile Char.isWhitespace).reverse).dropWhile Char.isWhitespace).reverse)

/-- `App.tsx:148`: `const isNumber = /^-?\d+(\.\d+)?$/.test(filterValue.trim())` —
the regex is applied to the *trimmed* filter value. -/
def isNumber (v : String) : Bool := numericPattern (jsTrim v)

/-- `App.tsx:157`: `const quotedValue = isNumber ? filterValue : '...'` —
a numeric-looking value is emitted verbatim, any other value is wrapped
in single quotes by plain concatenation (no escaping of embedded quotes). -/
def quotedValue (v : String) : String :=
  if isNumber v then v else quoteStr ++ v ++ quoteStr

/-- The `whereClause` fragment built at `App.tsx:151-158`: the `CONTAINS`
operator becomes a `LIKE` wildcard pattern, every other operator is
emitted infix with the (possibly quoted) value. -/
def whereClause (c op v : String) : String :=
  if op = "CONTAINS" then c ++ " LIKE " ++ quoteStr ++ "%" ++ v ++ "%" ++ quoteStr
  else c ++ " " ++ op ++ " " ++ quotedValue v

/-- Reads the body of a single-quoted CQL string literal under the
doubling convention: a doubled quote stands for one literal quote, a
single quote closes the literal (which must then end the input). -/
def unquoteAux : List Char → Option (List Char)
  | [] => none
  | [c] => if c = quoteChar then some [] else none
  | c :: c2 :: rest =>
    if c = quoteChar then
      if c2 = quoteChar then (unquoteAux rest).map (fun w => quoteChar :: w)
      else none
    else (unquoteAux (c2 :: rest)).map (fun w => c :: w)

/-- Parses a complete single-quoted CQL string literal (doubling
convention) back to the value it denotes. -/
def parseQuoted (s : String) : Option String :=
  match s.data with
  | [] => none
  | c :: rest => if c = quoteChar then (unquoteAux rest).map (fun l => String.mk l) else none

theorem unquoteAux_append_quote :
    ∀ (l : List Char), quoteChar ∉ l → unquoteAux (l ++ [quoteChar]) = some l
  | [], _ => by simp [unquoteAux]
  | c :: l, h => by
    simp only [List.mem_cons, not_or] at h
    obtain ⟨hc, hl⟩ := h
    have ih := unquoteAux_append_quote l hl
    cases l with
    | nil => simp [unquoteAux, Ne.symm hc]
    | cons x l2 =>
      simp only [List.cons_append] at ih ⊢
      simp [unquoteAux, Ne.symm hc, ih]

theorem unquoteAux_length :
    ∀ (cs w : List Char), unquoteAux cs = some w →
      cs.length = w.length + w.count quoteChar + 1
  | [], w => by simp [unquoteAux]
  | [c], w => by
    intro h
    simp only [unquoteAux] at h
    by_cases hc : c = quoteChar
    · rw [if_pos hc] at h
      simp only [Option.some.injEq] at h
      subst h
      simp
    · rw [if_neg hc] at h
      simp at h
  | c :: c2 :: rest, w => by
    intro h
    simp only [unquoteAux] at h
    by_cases hc : c = quoteChar
    · rw [if_pos hc] at h
      by_cases hc2 : c2 = quoteChar
      · rw [if_pos hc2] at h
        cases hu : unquoteAux rest with
        | none => rw [hu] at h; simp at h
        | some w2 =>
          rw [hu] at h
          simp at h
          subst h
          have ihl := unquoteAux_length rest w2 hu
          simp [List.count_cons, ihl]
          omega
      · rw [if_neg hc2] at h; simp at h
    · rw [if_neg hc] at h
      cases hu : unquoteAux (c2 :: rest) with
      | none => rw [hu] at h; simp at h
      | some w2 =>
        rw [hu] at h
        simp at h
        subst h
        have ihl := unquoteAux_length (c2 :: rest) w2 hu
        simp only [List.length_cons, List.count_cons] at ihl ⊢
        simp [if_neg hc]
        omega

theorem data_quoted (v : String) :
    (quoteStr ++ v ++ quoteStr).data = quoteChar :: (v.data ++ [quoteChar]) := by
  simp [quoteStr, String.data_append, Char.toString]

theorem parseQuoted_quoted (v : String) :
    parseQuoted (quoteStr ++ v ++ quoteStr)
      = (unquoteAux (v.data ++ [quoteChar])).map (fun l => String.mk l) := by
  unfold parseQuoted
  rw [data_quoted]
  simp

/-- A quote-free value round-trips through quoting and re-parsing. -/
theorem parseQuoted_roundtrip (v : String) (h : quoteChar ∉ v.data) :
    parseQuoted (quoteStr ++ v ++ quoteStr) = some v := by
  rw [parseQuoted_quoted, unquoteAux_append_quote v.data h]
  rfl

/-- A value containing a quote character never round-trips: the emitted
fragment (plain concatenation, no escaping) does not parse back to it. -/
theorem parseQuoted_no_roundtrip (v : String) (h : quoteChar ∈ v.data) :
    parseQuoted (quoteStr ++ v ++ quoteStr) ≠ some v := by
  rw [parseQuoted_quoted]
  intro hEq
  cases hu : unquoteAux (v.data ++ [quoteChar]) with
  | none => rw [hu] at hEq; simp at hEq
  | some w =>
    rw [hu] at hEq
    simp at hEq
    have hw : w = v.data := by
      have := congrArg String.data hEq
      simpa using this
    subst hw
    have hlen := unquoteAux_length (v.data ++ [quoteChar]) v.data hu
    simp only [List.length_append, List.length_cons, List.length_nil] at hlen
    have hcount : v.data.count quoteChar ≠ 0 := by
      simpa [List.count_eq_zero] using h
    omega

/-- C1 (counterexample): the claim fails on the code in two ways.
First, classification does not agree with the stated grammar on the raw
value: `" 1"` (leading space) does not match the grammar, yet
`isNumber` classifies it Numeric because the code tests the *trimmed*
value (`App.tsx:148`).  Second, embedded quote characters are not
escaped by doubling: for the value `a'b` the emitted fragment value is
`'a'b'`, which does not parse back to the original value (it does not
parse at all). -/
theorem c1_counterexample :
    (isNumber " 1" = true ∧ numericPattern " 1" = false)
    ∧ quotedValue ("a" ++ quoteStr ++ "b") = quoteStr ++ ("a" ++ quoteStr ++ "b") ++ quoteStr
    ∧ parseQuoted (quotedValue ("a" ++ quoteStr ++ "b")) = none := by
  refine ⟨⟨by decide, by decide⟩, by decide, by decide⟩

/-- C1 (amended): the FilterSpec compiler classifies a value Numeric
exactly when its whitespace-trimmed form matches the grammar "optional
leading minus, digits, optional decimal point and digits"; a Numeric
value is emitted unquoted and verbatim; every other value is emitted
single-quoted by plain concatenation with no escaping, so a quote-free
value round-trips through re-parsing, but every value containing a
quote character yields a fragment that does not parse back to the
original value. -/
theorem c1_amended (c op v : String) :
    isNumber v = numericPattern (jsTrim v)
    ∧ (op ≠ "CONTAINS" → whereClause c op v = c ++ " " ++ op ++ " " ++ quotedValue v)
    ∧ (isNumber v = true → quotedValue v = v)
    ∧ (isNumber v = false → quotedValue v = quoteStr ++ v ++ quoteStr)
    ∧ (quoteChar ∉ v.data → parseQuoted (quoteStr ++ v ++ quoteStr) = some v)
    ∧ (quoteChar ∈ v.data → parseQuoted (quoteStr ++ v ++ quoteStr) ≠ some v) := by
  refine ⟨rfl, fun hop => ?_, fun h => ?_, fun h => ?_,
    fun h => parseQuoted_roundtrip v h, fun h => parseQuoted_no_roundtrip v h⟩
  · rw [whereClause, if_neg hop]
  · rw [quotedValue, if_pos h]
  · rw [quotedValue, if_neg (by rw [h]; exact Bool.false_ne_true)]

/-- C1 (witness): the amended theorem applied at the column `status`,
operator `=`, and the concrete values `active` (quote-free, round-trips)
and `a'b` (contains a quote, does not round-trip). -/
theorem c1_amended_witness :
    whereClause "status" "=" "active" = "status" ++ " " ++ "=" ++ " " ++ quotedValue "active"
    ∧ parseQuoted (quoteStr ++ "active" ++ quoteStr) = some "active"
    ∧ parseQuoted (quoteStr ++ ("a" ++ quoteStr ++ "b") ++ quoteStr)
        ≠ some ("a" ++ quoteStr ++ "b") :=
  ⟨(c1_amended "status" "=" "active").2.1 (by decide),
   (c1_amended "status" "=" "active").2.2.2.2.1 (by decide),
   (c1_amended "status" "=" ("a" ++ quoteStr ++ "b")).2.2.2.2.2 (by decide)⟩

example : numericPattern "-12.5" = true := by decide
example : numericPattern "1." = false := by decide
example : numericPattern "" = false := by decide
example : numericPattern ".5" = false := by decide
example : numericPattern "1e5" = false := by decide
example : isNumber " 42 " = true := by decide
example : parseQuoted (quoteStr ++ "ab" ++ quoteStr) = some "ab" := by decide
example : parseQuoted (quoteStr ++ "a" ++ quoteStr ++ "b" ++ quoteStr) = none := by decide
example : parseQuoted (quoteStr ++ "a" ++ quoteStr ++ quoteStr ++ "b" ++ quoteStr)
    = some ("a" ++ quoteStr ++ "b") := by decide

/-! ## Query parameters (`fetchTableData`, `App.tsx:132-206`) -/

/-- The query parameters assembled by `fetchTableData` for the rows
request (`App.tsx:138-163`).  In the source `allow_filtering` is either
`true` or absent; absence is modelled as `false`. -/
structure QueryParams where
  page_size : Nat
  page_state : Option String
  where_clause : Option String
  allow_filtering : Bool
deriving DecidableEq, Repr

/-- JS truthiness of `filterColumn && filterValue` on strings
(`App.tsx:146` and `App.tsx:225`): both nonempty. -/
def hasFilters (filterColumn filterValue : String) : Bool :=
  !(filterColumn == "") && !(filterValue == "")

/-- The `whereClause` local of `fetchTableData`: empty unless
`applyFilters && filterColumn && filterValue` (`App.tsx:143-159`). -/
def whereClauseOf (applyFilters : Bool) (c op v : String) : String :=
  if applyFilters && hasFilters c v then whereClause c op v else ""

/-- The rows-request parameters built at `App.tsx:138-163`:
`page_size` capped by the query limit, the page token, and — when the
filter guard holds — the predicate fragment with `allow_filtering`
auto-enabled. -/
def fetchTableDataParams (pageSize queryLimit : Nat) (pageState : Option String)
    (applyFilters : Bool) (c op v : String) : QueryParams :=
  { page_size := min pageSize queryLimit
    page_state := pageState
    where_clause :=
      if applyFilters && hasFilters c v then some (whereClause c op v) else none
    allow_filtering := applyFilters && hasFilters c v }

/-- The count-request parameters (`App.tsx:166-170`): empty object
unless the `whereClause` string is truthy, in which case the same
predicate is sent with `allow_filtering` enabled. -/
structure CountParams where
  where_clause : Option String
  allow_filtering : Bool
deriving DecidableEq, Repr

/-- `App.tsx:166-170`: `countParams` carries the `whereClause` and the
full-scan flag exactly when that string is nonempty. -/
def countParamsOf (applyFilters : Bool) (c op v : String) : CountParams :=
  if whereClauseOf applyFilters c op v == "" then ⟨none, false⟩
  else ⟨some (whereClauseOf applyFilters c op v), true⟩

theorem append_ne_empty_left (a b : String) (ha : a ≠ "") : a ++ b ≠ "" := by
  intro h
  apply ha
  apply String.ext
  have hd := congrArg String.data h
  rw [String.data_append] at hd
  have h0 : ("" : String).data = [] := rfl
  rw [h0] at hd
  have : a.data = [] := (List.append_eq_nil.mp hd).1
  rw [this, h0]

/-- A compiled predicate fragment is never the empty string when the
column is nonempty (it starts with the column name). -/
theorem whereClause_ne_empty (c op v : String) (hc : c ≠ "") :
    whereClause c op v ≠ "" := by
  rw [whereClause]
  split
  · repeat' apply append_ne_empty_left
    exact hc
  · repeat' apply append_ne_empty_left
    exact hc

/-- C5: the full-scan flag (`allow_filtering`) on the rows request is
set exactly when a well-formed filter is being applied — any operator,
any nonempty column and value — and absent whenever no filter is
supplied. -/
theorem c5_full_scan_iff (ps ql : Nat) (tok : Option String) (af : Bool) (c op v : String) :
    (fetchTableDataParams ps ql tok af c op v).allow_filtering = true
      ↔ (af = true ∧ c ≠ "" ∧ v ≠ "") := by
  simp [fetchTableDataParams, hasFilters]

/-- C6: a `CONTAINS` filter compiles to the wildcard pattern-match
fragment `column LIKE '%value%'` and unconditionally sets the full-scan
flag on that query. -/
theorem c6_contains (ps ql : Nat) (tok : Option String) (c v : String)
    (hc : c ≠ "") (hv : v ≠ "") :
    (fetchTableDataParams ps ql tok true c "CONTAINS" v).where_clause
        = some (c ++ " LIKE " ++ quoteStr ++ "%" ++ v ++ "%" ++ quoteStr)
    ∧ (fetchTableDataParams ps ql tok true c "CONTAINS" v).allow_filtering = true := by
  have hf : hasFilters c v = true := by simp [hasFilters, hc, hv]
  refine ⟨?_, ?_⟩ <;> simp [fetchTableDataParams, hf, whereClause]

/-- C6 (witness): the `CONTAINS` theorem at column `name`, value `bob`. -/
theorem c6_contains_witness :
    (fetchTableDataParams 50 1000 none true "name" "CONTAINS" "bob").where_clause
        = some ("name" ++ " LIKE " ++ quoteStr ++ "%" ++ "bob" ++ "%" ++ quoteStr)
    ∧ (fetchTableDataParams 50 1000 none true "name" "CONTAINS" "bob").allow_filtering
        = true :=
  c6_contains 50 1000 none "name" "bob" (by decide) (by decide)

/-! ## Count estimator and compiled statement (backend, modelled) -/

/-- A row-count estimate: the value and whether it is exact. -/
structure CountEstimate where
  value : Nat
  exact : Bool
deriving DecidableEq, Repr

/-- Modelled from the spec: the backend count endpoint
(`routers/explorer.py` is not under `src/`).  With no predicate it
answers from store-maintained size-estimate metadata (`sizeEstimate`)
without scanning table data and flags the result approximate; with a
predicate it runs a predicate-scoped count (`scanCount`) honouring the
caller's predicate and full-scan flag and flags the result exact
(spec §4.4, §8 count policy). -/
def countEstimate (sizeEstimate : Nat) (scanCount : String → Nat)
    (p : CountParams) : CountEstimate :=
  match p.where_clause with
  | none => ⟨sizeEstimate, false⟩
  | some w => ⟨scanCount w, true⟩

/-- C7: the count estimate is exact precisely when a well-formed filter
is active; the count request carries the same predicate and full-scan
flag as the rows request; and with no filter the value comes from the
size-estimate metadata and is flagged approximate. -/
theorem c7_count_policy (se : Nat) (sc : String → Nat) (ps ql : Nat)
    (tok : Option String) (af : Bool) (c op v : String) :
    ((countEstimate se sc (countParamsOf af c op v)).exact = true
        ↔ (af = true ∧ c ≠ "" ∧ v ≠ ""))
    ∧ (countParamsOf af c op v).where_clause
        = (fetchTableDataParams ps ql tok af c op v).where_clause
    ∧ (countParamsOf af c op v).allow_filtering
        = (fetchTableDataParams ps ql tok af c op v).allow_filtering
    ∧ (¬(af = true ∧ c ≠ "" ∧ v ≠ "") →
        countEstimate se sc (countParamsOf af c op v) = ⟨se, false⟩) := by
  by_cases hg : (af && hasFilters c v) = true
  · have hc : c ≠ "" := by
      simp [hasFilters] at hg
      exact hg.2.1
    have hw : whereClauseOf af c op v = whereClause c op v := by
      rw [whereClauseOf, if_pos hg]
    have hne : ¬(whereClauseOf af c op v == "") = true := by
      simp [hw]
      exact whereClause_ne_empty c op v hc
    have hcp : countParamsOf af c op v
        = ⟨some (whereClause c op v), true⟩ := by
      rw [countParamsOf, if_neg hne, hw]
    have hguard : af = true ∧ c ≠ "" ∧ v ≠ "" := by
      simpa [hasFilters, and_assoc] using hg
    refine ⟨?_, ?_, ?_, ?_⟩
    · rw [hcp]
      simp [countEstimate, hguard]
    · rw [hcp]
      simp [fetchTableDataParams, hg]
    · rw [hcp]
      simp [fetchTableDataParams, hg]
    · intro hno
      exact absurd hguard hno
  · have hw : whereClauseOf af c op v = "" := by
      rw [whereClauseOf, if_neg hg]
    have hcp : countParamsOf af c op v = ⟨none, false⟩ := by
      rw [countParamsOf, if_pos (by simp [hw])]
    have hguard : ¬(af = true ∧ c ≠ "" ∧ v ≠ "") := by
      intro hyes
      apply hg
      simp [hasFilters, hyes.1, hyes.2.1, hyes.2.2]
    refine ⟨?_, ?_, ?_, ?_⟩
    · simp [hcp, countEstimate, hguard]
    · simp [hcp, fetchTableDataParams, hg]
    · simp [hcp, fetchTableDataParams, hg]
    · intro _
      simp [hcp, countEstimate]

/-- C7 (witness): the count-policy theorem applied with a concrete size
estimate, scan counter, and the active filter `status = active`, plus
its no-filter instance. -/
theorem c7_count_policy_witness :
    (countEstimate 7 (fun _ => 3) (countParamsOf true "status" "=" "active")).exact = true
    ∧ countEstimate 7 (fun _ => 3) (countParamsOf false "status" "=" "active")
        = ⟨7, false⟩ :=
  ⟨(c7_count_policy 7 (fun _ => 3) 50 1000 none true "status" "=" "active").1.mpr
      ⟨rfl, by decide, by decide⟩,
   (c7_count_policy 7 (fun _ => 3) 50 1000 none false "status" "=" "active").2.2.2
      (by simp)⟩

/-- Modelled from the spec: statement assembly by the Query Compiler
(spec §4.2; the backend `routers/explorer.py` is not under `src/`):
the base projection, then `WHERE` when a predicate is present, the
full-scan flag when required, and `LIMIT` always. -/
def statementText (keyspace table : String) (w : Option String)
    (af : Bool) (lim : Nat) : String :=
  "SELECT * FROM " ++ keyspace ++ "." ++ table
    ++ (match w with | none => "" | some p => " WHERE " ++ p)
    ++ (if af then " ALLOW FILTERING" else "")
    ++ " LIMIT " ++ toString lim

/-- The full compilation pipeline for one
`(keyspace, table, filter, pageSize, pageToken)` tuple: the frontend
parameter construction (`fetchTableDataParams`) followed by the
modelled backend statement assembly. -/
def compiledStatement (keyspace table : String) (pageSize queryLimit : Nat)
    (pageToken : Option String) (applyFilters : Bool) (c op v : String) : String :=
  let p := fetchTableDataParams pageSize queryLimit pageToken applyFilters c op v
  statementText keyspace table p.where_clause p.allow_filtering p.page_size

/-- C9: query compilation is deterministic and idempotent — two
compilations of equal `(keyspace, table, filter, pageSize, pageToken)`
tuples yield character-for-character identical statement text, with no
dependence on anything outside those inputs (the compilation is a pure
function of its arguments). -/
theorem c9_idempotent (ks t : String) (ps ql : Nat) (tok : Option String)
    (af : Bool) (c op v : String)
    (ks2 t2 : String) (ps2 ql2 : Nat) (tok2 : Option String)
    (af2 : Bool) (c2 op2 v2 : String)
    (h1 : ks = ks2) (h2 : t = t2) (h3 : ps = ps2) (h4 : ql = ql2)
    (h5 : tok = tok2) (h6 : af = af2) (h7 : c = c2) (h8 : op = op2)
    (h9 : v = v2) :
    compiledStatement ks t ps ql tok af c op v
      = compiledStatement ks2 t2 ps2 ql2 tok2 af2 c2 op2 v2 := by
  subst h1 h2 h3 h4 h5 h6 h7 h8 h9
  rfl

/-- C9 (witness): two compilations of the same concrete tuple are
identical. -/
theorem c9_idempotent_witness :
    compiledStatement "ks" "users" 50 1000 (some "tok") true "status" "=" "active"
      = compiledStatement "ks" "users" 50 1000 (some "tok") true "status" "=" "active" :=
  c9_idempotent "ks" "users" 50 1000 (some "tok") true "status" "=" "active"
    "ks" "users" 50 1000 (some "tok") true "status" "=" "active"
    rfl rfl rfl rfl rfl rfl rfl rfl rfl

/-! ## Cursor manager (`pageHistory` / `currentPageState`) -/

/-- The per-session cursor state: the client-held token history stack
(`pageHistory`, `App.tsx:56`) and the token of the current page
(`currentPageState`, `App.tsx:55`). -/
structure Cursor where
  pageHistory : List String
  currentPageState : Option String
deriving DecidableEq, Repr

/-- The initial state: empty history, no current token ("currently on
the first page"). -/
def atStart : Cursor := ⟨[], none⟩

/-- `Advance(t)` — `handleNextPage` (`App.tsx:221-228`): push
`currentPageState || ''` onto the history, then the fetch makes the new
token current (`setCurrentPageState(pageState)`, `App.tsx:181`). -/
def advance (t : String) (s : Cursor) : Cursor :=
  ⟨s.pageHistory ++ [s.currentPageState.getD ""], some t⟩

/-- `Retreat()` — the non-empty branch of `handlePreviousPage`
(`App.tsx:230-239`): pop the top of the history
(`newHistory.pop() || null`, so the `''` sentinel becomes `null`) and
refetch with it, making it current.  `none` when the history is empty
(the guard fails and nothing happens). -/
def retreat (s : Cursor) : Option Cursor :=
  match s.pageHistory.getLast? with
  | none => none
  | some p => some ⟨s.pageHistory.dropLast, if p = "" then none else some p⟩

/-- `n` successive Advances with the tokens of `ts`, oldest first. -/
def advanceAll (ts : List String) (s : Cursor) : Cursor :=
  ts.foldl (fun s t => advance t s) s

/-- `i` successive Retreats; `none` as soon as one fails. -/
def retreatN : Nat → Cursor → Option Cursor
  | 0, s => some s
  | n + 1, s => (retreat s).bind (retreatN n)

theorem advanceAll_append (ts : List String) (t : String) (s : Cursor) :
    advanceAll (ts ++ [t]) s = advance t (advanceAll ts s) := by
  simp [advanceAll, List.foldl_append]

theorem retreat_advance (t : String) (s : Cursor)
    (h : s.currentPageState ≠ some "") : retreat (advance t s) = some s := by
  obtain ⟨ph, cur⟩ := s
  rw [advance, retreat]
  simp only [List.getLast?_concat, List.dropLast_concat]
  cases cur with
  | none => simp
  | some p =>
    have hp : p ≠ "" := by
      intro e
      exact h (by rw [e])
    simp [hp]

theorem advanceAll_current_ne (ts : List String) (h : ∀ t ∈ ts, t ≠ "") :
    (advanceAll ts atStart).currentPageState ≠ some "" := by
  rcases List.eq_nil_or_concat ts with rfl | ⟨ts2, t, rfl⟩
  · simp [advanceAll, atStart]
  · rw [List.concat_eq_append] at h ⊢
    rw [advanceAll_append]
    have ht : t ≠ "" := h t (by simp)
    simp [advance, ht]

theorem retreatN_advanceAll :
    ∀ (ts : List String), (∀ t ∈ ts, t ≠ "") → ∀ i, i ≤ ts.length →
      retreatN i (advanceAll ts atStart)
        = some (advanceAll (ts.take (ts.length - i)) atStart) := by
  intro ts
  induction ts using List.reverseRecOn with
  | nil =>
    intro _ i hi
    simp only [List.length_nil, Nat.le_zero] at hi
    subst hi
    simp [retreatN]
  | append_singleton ts2 t ih =>
    intro h i hi
    have h2 : ∀ u ∈ ts2, u ≠ "" := fun u hu => h u (by simp [hu])
    cases i with
    | zero =>
      have h1 : (ts2 ++ [t]).take ((ts2 ++ [t]).length - 0) = ts2 ++ [t] := by
        rw [Nat.sub_zero, List.take_length]
      rw [retreatN, h1]
    | succ j =>
      have hj : j ≤ ts2.length := by
        simpa using hi
      rw [retreatN, advanceAll_append,
        retreat_advance t (advanceAll ts2 atStart) (advanceAll_current_ne ts2 h2)]
      have hlen : (ts2 ++ [t]).length - (j + 1) = ts2.length - j := by
        simp
      have htake : (ts2 ++ [t]).take (ts2.length - j) = ts2.take (ts2.length - j) :=
        List.take_append_of_le_length (Nat.sub_le _ _)
      rw [hlen, htake, Option.some_bind]
      exact ih h2 j hj

/-- C2: for any sequence of `Advance(t1), …, Advance(tn)` (tokens are
engine-issued and nonempty — `handleNextPage` only fires on a truthy
`next_page_state`) followed by `n` consecutive `Retreat()` calls, the
manager ends at `atStart`, and after the `i`-th Retreat the whole state
— in particular the current token — is exactly the state that held
immediately before the `i`-th-from-last Advance. -/
theorem c2_cursor_roundtrip (ts : List String) (h : ∀ t ∈ ts, t ≠ "") :
    retreatN ts.length (advanceAll ts atStart) = some atStart
    ∧ ∀ i, i ≤ ts.length →
        retreatN i (advanceAll ts atStart)
          = some (advanceAll (ts.take (ts.length - i)) atStart) := by
  refine ⟨?_, retreatN_advanceAll ts h⟩
  have := retreatN_advanceAll ts h ts.length le_rfl
  simpa [advanceAll] using this

/-- C2 (witness): three advances with tokens `a`, `b`, `c` followed by
three retreats return to `atStart`, and the first retreat restores the
state current before the last advance. -/
theorem c2_cursor_roundtrip_witness :
    retreatN 3 (advanceAll ["a", "b", "c"] atStart) = some atStart
    ∧ retreatN 1 (advanceAll ["a", "b", "c"] atStart)
        = some (advanceAll ["a", "b"] atStart) :=
  ⟨(c2_cursor_roundtrip ["a", "b", "c"] (by decide)).1,
   (c2_cursor_roundtrip ["a", "b", "c"] (by decide)).2 1 (by decide)⟩

/-! ## Cursor reset on query-shape changes (C3) and empty-history
Retreat (C4) -/

/-- `handlePageSizeChange` (`App.tsx:241-247`): `setPageHistory([])`
and a fetch with `pageState = null`, so the history is cleared and the
current token becomes `null`. -/
def handlePageSizeChange (_s : Cursor) : Cursor :=
  ⟨[], none⟩

/-- `applyServerSideFilters` (`App.tsx:249-254`): `setPageHistory([])`
and a fetch with `pageState = null`. -/
def applyServerSideFilters (_s : Cursor) : Cursor :=
  ⟨[], none⟩

/-- `clearServerSideFilters` (`App.tsx:256-266`): resets the filter
inputs, `setPageHistory([])`, and a fetch with `pageState = null`. -/
def clearServerSideFilters (_s : Cursor) : Cursor :=
  ⟨[], none⟩

/-- The table-button click (`App.tsx:515-519` and `App.tsx:558-562`):
`fetchTableData(keyspace, table)` with the default `pageState = null`.
`fetchTableData` (`App.tsx:132-206`) sets
`setCurrentPageState(pageState)` but never touches `pageHistory`, so
the history of the previously browsed table is left intact. -/
def switchTable (s : Cursor) : Cursor :=
  ⟨s.pageHistory, none⟩

/-- The `disabled` condition of the Previous button
(`App.tsx:839`): `pageHistory.length === 0`. -/
def previousButtonDisabled (hist : List String) : Bool :=
  hist.length == 0

/-- C3 (code divergence): page-size change, filter apply, and filter
clear all reset the cursor to `atStart`, but switching tables does not
— the page-token history of the old table survives, the Previous button
stays enabled, and its stale token would be replayed against the new
table.  Evaluated at the failing input: history `["tokA"]`, current
token `tokB`, then a table switch. -/
theorem c3_table_switch_divergence :
    handlePageSizeChange ⟨["tokA"], some "tokB"⟩ = atStart
    ∧ applyServerSideFilters ⟨["tokA"], some "tokB"⟩ = atStart
    ∧ clearServerSideFilters ⟨["tokA"], some "tokB"⟩ = atStart
    ∧ (switchTable ⟨["tokA"], some "tokB"⟩).pageHistory = ["tokA"]
    ∧ switchTable ⟨["tokA"], some "tokB"⟩ ≠ atStart
    ∧ previousButtonDisabled (switchTable ⟨["tokA"], some "tokB"⟩).pageHistory
        = false := by
  refine ⟨rfl, rfl, rfl, rfl, by decide, rfl⟩

/-- The observable outcome of one `handlePreviousPage` invocation: the
history afterwards, the fetch it issued (token and `applyFilters`
argument) if any, and any error it surfaced. -/
structure PrevPageOutcome where
  pageHistory : List String
  fetchArgs : Option (Option String × Bool)
  errorSet : Option String
deriving DecidableEq, Repr

/-- `handlePreviousPage` (`App.tsx:230-239`): when the history is
nonempty, pop its last entry (`pop() || null` maps the `''` sentinel to
`null`) and refetch with it, re-applying the active filters; when the
history is empty the guard fails and the handler does nothing — no
state change, no fetch, and no call to `setError`. -/
def handlePreviousPage (hist : List String) (c v : String) : PrevPageOutcome :=
  if hist.length > 0 then
    match hist.getLast? with
    | some p => ⟨hist.dropLast, some (if p = "" then none else some p, hasFilters c v), none⟩
    | none => ⟨hist, none, none⟩
  else ⟨hist, none, none⟩

/-- C4 (counterexample): `Retreat()` on an empty history does *not*
fail with a distinguishable `NoPriorPage` error — the handler is a
silent no-op: the history is unchanged, no fetch is issued, and no
error is surfaced. -/
theorem c4_counterexample :
    (handlePreviousPage [] "" "").errorSet = none
    ∧ (handlePreviousPage [] "" "").fetchArgs = none
    ∧ (handlePreviousPage [] "" "").pageHistory = [] := by
  refine ⟨rfl, rfl, rfl⟩

/-- C4 (amended): calling Retreat with an empty history stack is a
silent no-op — the state is unchanged, no fetch is issued and no error
is surfaced — and the UI instead prevents the call by disabling the
Previous button exactly when the history is empty. -/
theorem c4_amended (hist : List String) (c v : String) :
    (hist = [] →
      handlePreviousPage hist c v = ⟨hist, none, none⟩
      ∧ previousButtonDisabled hist = true)
    ∧ (hist ≠ [] → previousButtonDisabled hist = false
        ∧ (handlePreviousPage hist c v).fetchArgs.isSome) := by
  constructor
  · rintro rfl
    exact ⟨rfl, rfl⟩
  · intro hne
    constructor
    · simp [previousButtonDisabled, List.length_eq_zero, hne]
    · have hlen : hist.length > 0 := List.length_pos.mpr hne
      rw [handlePreviousPage, if_pos hlen]
      cases hl : hist.getLast? with
      | none =>
        rw [List.getLast?_eq_none_iff] at hl
        exact absurd hl hne
      | some p => simp

/-- C4 (witness): the amended theorem at the empty history and at the
one-element history `["tok"]`. -/
theorem c4_amended_witness :
    (handlePreviousPage [] "c" "v" = ⟨[], none, none⟩
      ∧ previousButtonDisabled [] = true)
    ∧ previousButtonDisabled ["tok"] = false :=
  ⟨(c4_amended [] "c" "v").1 rfl,
   ((c4_amended ["tok"] "c" "v").2 (by decide)).1⟩

/-! ## Filter preservation across page navigation (C10) -/

/-- The rows-request parameters of the fetch issued by `handleNextPage`
(`App.tsx:221-228`): token = the `next_page_state` of the current page,
`applyFilters = Boolean(filterColumn && filterValue)`. -/
def nextPageFetchParams (nextTok : String) (ps ql : Nat) (c op v : String) : QueryParams :=
  fetchTableDataParams ps ql (some nextTok) (hasFilters c v) c op v

/-- The rows-request parameters of the fetch issued by the nonempty
branch of `handlePreviousPage` (`App.tsx:230-239`): token = the popped
history entry, `applyFilters = Boolean(filterColumn && filterValue)`. -/
def prevPageFetchParams (prevTok : Option String) (ps ql : Nat) (c op v : String) : QueryParams :=
  fetchTableDataParams ps ql prevTok (hasFilters c v) c op v

/-- C10: page navigation preserves the active filter.  Whenever the
filter column and value are set, the Next-page fetch, the
Previous-page fetch (for any token), and the fetch that originally
applied the filter (`applyServerSideFilters`: `applyFilters = true`,
token `null`) all carry the identical `WHERE` predicate and the
full-scan flag. -/
theorem c10_filter_preserved (ps ql : Nat) (tok : String) (ptok : Option String)
    (c op v : String) (hc : c ≠ "") (hv : v ≠ "") :
    (nextPageFetchParams tok ps ql c op v).where_clause = some (whereClause c op v)
    ∧ (nextPageFetchParams tok ps ql c op v).allow_filtering = true
    ∧ (prevPageFetchParams ptok ps ql c op v).where_clause = some (whereClause c op v)
    ∧ (prevPageFetchParams ptok ps ql c op v).allow_filtering = true
    ∧ (fetchTableDataParams ps ql none true c op v).where_clause
        = some (whereClause c op v)
    ∧ (fetchTableDataParams ps ql none true c op v).allow_filtering = true := by
  have hf : hasFilters c v = true := by simp [hasFilters, hc, hv]
  refine ⟨?_, ?_, ?_, ?_, ?_, ?_⟩ <;>
    simp [nextPageFetchParams, prevPageFetchParams, fetchTableDataParams, hf]

/-- C10 (witness): the preservation theorem at the filter
`status = active`, page size 50, and concrete tokens. -/
theorem c10_filter_preserved_witness :
    (nextPageFetchParams "t2" 50 1000 "status" "=" "active").where_clause
      = some (whereClause "status" "=" "active")
    ∧ (prevPageFetchParams (some "t1") 50 1000 "status" "=" "active").where_clause
      = some (whereClause "status" "=" "active") :=
  ⟨(c10_filter_preserved 50 1000 "t2" (some "t1") "status" "=" "active"
      (by decide) (by decide)).1,
   (c10_filter_preserved 50 1000 "t2" (some "t1") "status" "=" "active"
      (by decide) (by decide)).2.2.1⟩

/-! ## Client-side sorting (`getSortedTableData`, `App.tsx:282-309`)

Rows are abstracted by their sort-column value (`key`), `none`
modelling `null`/`undefined`.  `parseNum` abstracts the host `Number()`
conversion (`none` standing for `NaN`) and `strCmp` the host
`localeCompare`; only the comparator's sign matters to the sort. -/

/-- The comparator body of `getSortedTableData` (`App.tsx:285-306`):
nulls compare after everything regardless of direction; two values that
both parse as numbers compare numerically; otherwise locale string
comparison; the direction only flips the two non-null branches. -/
def rowCompare (parseNum : String → Option Int) (strCmp : String → String → Int)
    (asc : Bool) (a b : Option String) : Int :=
  match a, b with
  | none, none => 0
  | none, some _ => 1
  | some _, none => -1
  | some x, some y =>
    match parseNum x, parseNum y with
    | some nx, some ny => if asc then nx - ny else ny - nx
    | _, _ =>
      let comparison := strCmp x y
      if asc then comparison else -comparison

/-- `getSortedTableData` (`App.tsx:282-309`): `[...rows].sort(cmp)` —
JS `Array.prototype.sort` is a stable sort by the comparator, modelled
by the stable `List.insertionSort` with `cmp ≤ 0` as the relation. -/
def getSortedTableData {α : Type} (parseNum : String → Option Int)
    (strCmp : String → String → Int) (key : α → Option String)
    (asc : Bool) (rows : List α) : List α :=
  List.insertionSort
    (fun a b => rowCompare parseNum strCmp asc (key a) (key b) ≤ 0) rows

/-- All rows with a present sort-column value precede all rows whose
value is null/absent. -/
def nullsLast {α : Type} (key : α → Option String) (l : List α) : Prop :=
  ∃ xs ys, l = xs ++ ys
    ∧ (∀ r ∈ xs, (key r).isSome = true) ∧ (∀ r ∈ ys, key r = none)

theorem rowCompare_right_none (pn : String → Option Int)
    (sc : String → String → Int) (asc : Bool) (a : Option String) :
    rowCompare pn sc asc a none ≤ 0 := by
  cases a <;> simp [rowCompare]

theorem rowCompare_none_some (pn : String → Option Int)
    (sc : String → String → Int) (asc : Bool) (b : String) :
    ¬ rowCompare pn sc asc none (some b) ≤ 0 := by
  simp [rowCompare]

theorem orderedInsert_nullsLast {α : Type} (pn : String → Option Int)
    (sc : String → String → Int) (key : α → Option String) (asc : Bool) (x : α) :
    ∀ (xs ys : List α), (∀ r ∈ xs, (key r).isSome = true) → (∀ r ∈ ys, key r = none) →
      nullsLast key
        (List.orderedInsert
          (fun a b => rowCompare pn sc asc (key a) (key b) ≤ 0) x (xs ++ ys))
  | [], ys, _, hys => by
    cases ys with
    | nil =>
      cases hx : key x with
      | none => exact ⟨[], [x], by simp, by simp, by simp [hx]⟩
      | some p => exact ⟨[x], [], by simp, by simp [hx], by simp⟩
    | cons z ys2 =>
      have hz : key z = none := hys z (by simp)
      have hr : rowCompare pn sc asc (key x) (key z) ≤ 0 := by
        rw [hz]
        exact rowCompare_right_none pn sc asc (key x)
      simp only [List.nil_append, List.orderedInsert, if_pos hr]
      cases hx : key x with
      | none =>
        refine ⟨[], x :: z :: ys2, by simp, by simp, ?_⟩
        intro r hrr
        simp only [List.mem_cons] at hrr
        rcases hrr with rfl | h2
        · exact hx
        · exact hys r (by simpa using h2)
      | some p =>
        exact ⟨[x], z :: ys2, by simp, by simp [hx], hys⟩
  | a :: xs2, ys, hxs, hys => by
    have ha : (key a).isSome = true := hxs a (by simp)
    have hxs2 : ∀ r ∈ xs2, (key r).isSome = true := fun r hr => hxs r (by simp [hr])
    by_cases hr : rowCompare pn sc asc (key x) (key a) ≤ 0
    · simp only [List.cons_append, List.orderedInsert, if_pos hr]
      have hx : (key x).isSome = true := by
        cases hx : key x with
        | some p => rfl
        | none =>
          obtain ⟨pa, hpa⟩ := Option.isSome_iff_exists.mp ha
          rw [hx, hpa] at hr
          exact absurd hr (rowCompare_none_some pn sc asc pa)
      refine ⟨x :: a :: xs2, ys, by simp, ?_, hys⟩
      intro r hrr
      simp only [List.mem_cons] at hrr
      rcases hrr with rfl | rfl | h3
      · exact hx
      · exact ha
      · exact hxs2 r h3
    · simp only [List.cons_append, List.orderedInsert, if_neg hr]
      obtain ⟨xs3, ys3, heq, hxs3, hys3⟩ :=
        orderedInsert_nullsLast pn sc key asc x xs2 ys hxs2 hys
      refine ⟨a :: xs3, ys3, by rw [List.cons_append, ← heq]; rfl, ?_, hys3⟩
      intro r hrr
      simp only [List.mem_cons] at hrr
      rcases hrr with rfl | h2
      · exact ha
      · exact hxs3 r h2

theorem getSortedTableData_nullsLast {α : Type} (pn : String → Option Int)
    (sc : String → String → Int) (key : α → Option String) (asc : Bool)
    (rows : List α) :
    nullsLast key (getSortedTableData pn sc key asc rows) := by
  induction rows with
  | nil => exact ⟨[], [], rfl, by simp, by simp⟩
  | cons x rows2 ih =>
    obtain ⟨xs, ys, heq, hxs, hys⟩ := ih
    rw [getSortedTableData, List.insertionSort]
    rw [getSortedTableData] at heq
    rw [heq]
    exact orderedInsert_nullsLast pn sc key asc x xs ys hxs hys

/-- C8: with a sort specification, the displayed page is a stable sort
of the retrieved rows by the comparator: the output is a permutation of
the rows; rows whose sort-column value is null or absent are placed
last regardless of the chosen direction; two present values that both
parse as numbers compare numerically; any other pair of present values
compares by locale-ordered string comparison (direction flipping the
sign); and the null placement is direction-independent. -/
theorem c8_sorted_rows {α : Type} (pn : String → Option Int)
    (sc : String → String → Int) (key : α → Option String) (asc : Bool)
    (rows : List α) :
    (getSortedTableData pn sc key asc rows).Perm rows
    ∧ nullsLast key (getSortedTableData pn sc key asc rows)
    ∧ (∀ x y nx ny, pn x = some nx → pn y = some ny →
        rowCompare pn sc asc (some x) (some y)
          = if asc then nx - ny else ny - nx)
    ∧ (∀ x y, pn x = none ∨ pn y = none →
        rowCompare pn sc asc (some x) (some y)
          = if asc then sc x y else -(sc x y))
    ∧ (∀ b, rowCompare pn sc asc none (some b) = 1)
    ∧ (∀ a, rowCompare pn sc asc (some a) none = -1)
    ∧ rowCompare pn sc asc none none = 0 := by
  refine ⟨List.perm_insertionSort _ rows,
    getSortedTableData_nullsLast pn sc key asc rows, ?_, ?_, ?_, ?_, rfl⟩
  · intro x y nx ny hx hy
    simp [rowCompare, hx, hy]
  · intro x y h
    rcases h with hx | hy
    · cases hy : pn y <;> simp [rowCompare, hx, hy]
    · cases hx : pn x <;> simp [rowCompare, hx, hy]
  · intro b
    rfl
  · intro a
    rfl

/-- C8 (witness): the sort theorem at a concrete ascending sort of
three rows (one null), with a concrete number parser and string
comparator: the output is a permutation, and two numeric values
compare numerically. -/
theorem c8_sorted_rows_witness :
    (getSortedTableData
        (fun s => if s = "1" then some 1 else if s = "2" then some 2 else none)
        (fun _ _ => 0) (fun r => r) true
        [some "b", none, some "1"]).Perm [some "b", none, some "1"]
    ∧ rowCompare
        (fun s => if s = "1" then some 1 else if s = "2" then some 2 else none)
        (fun _ _ => 0) true (some "1") (some "2") = 1 - 2 := by
  have h := c8_sorted_rows
    (fun s => if s = "1" then some 1 else if s = "2" then some 2 else none)
    (fun _ _ => 0) (fun r : Option String => r) true [some "b", none, some "1"]
  refine ⟨h.1, ?_⟩
  have h3 := h.2.2.1 "1" "2" 1 2 (by decide) (by decide)
  rw [h3]
  rfl

end ScyllaClient
